import Mathlib

/-!
Shallow embedding of the koto runtime core (value model, iterator core-library
module, string module, num4 module, koto module) translated from the
repository sources under `src/src/runtime/src/`.

Iterables are modelled as finite lists of iterator outputs (the spec's
`ValueIteratorOutput` sum), user callables that the VM would run are modelled
as explicit function parameters, and runtime numbers are modelled with
`Int` (i64) and `ℚ` (f64, exact on the values used here).
-/

namespace Koto

/-- The number type ValueNumber (value_number.rs is not under src/): either a
signed 64 bit integer or a float, per the spec's data model table. -/
inductive KNumber where
  | I64 (n : Int)
  | F64 (q : ℚ)
deriving DecidableEq, Repr

/-- Numeric magnitude of a number, used when modelling the VM's numeric
comparisons and conversions. -/
def KNumber.toRat : KNumber → ℚ
  | .I64 n => n
  | .F64 q => q

/-- Modelled from the spec: `ValueNumber::as_i64` (value_number.rs is not
under src/) converts a float to an integer by truncation toward zero;
i64 saturation is not modelled (the claims only use small values). -/
def KNumber.as_i64 : KNumber → Int
  | .I64 n => n
  | .F64 q => if 0 ≤ q then q.floor else q.ceil

/-- A runtime error, modelled structurally.  Each constructor records the
data that the corresponding `runtime_error!` / `type_error` /
`type_error_with_slice` call in the source formats into its message. -/
inductive KError where
  /-- A type_error call: carries the expected-kind text and the
  offending value type name (as a codepoint string). -/
  | typeError (expected : String) (foundType : List Nat)
  /-- A type_error_with_slice call: carries the expected text and
  the type names of the offending argument slice. -/
  | typeErrorWithSlice (expected : String) (foundTypes : List (List Nat))
  /-- The to_map runtime error that only immutable Values can be used as
  keys, formatted with the offending key type name. -/
  | immutableKeyError (foundType : List Nat)
  /-- The from_bytes runtime error that a number is out of the valid byte
  range; it formats the offending number. -/
  | byteRangeError (n : KNumber)
  /-- from_bytes: `"Input failed UTF-8 validation"`. -/
  | utf8Error
  /-- The compare_values runtime error that a Bool was expected from the
  less-than comparison; it formats the found type name. -/
  | boolFromLessError (foundType : List Nat)
  /-- An error produced by user code or by the VM, carried unchanged. -/
  | external (message : String)
deriving DecidableEq, Repr

mutual

/-- The core `Value` type (value.rs).  Function payloads are elided: the
claims only depend on each function-like variant's identity.  Strings are
codepoint lists; `Num2`/`Num4` components and floats are exact rationals. -/
inductive KValue where
  | null
  | bool (b : Bool)
  | number (n : KNumber)
  | num2 (a b : ℚ)
  | num4 (a b c d : ℚ)
  | range (start stop : Int)
  | list (xs : List KValue)
  | tuple (xs : List KValue)
  /-- A map: insertion-ordered entries plus the optional `@type` meta entry
  (the only meta entry the claims consult, via `get_meta_value(MetaKey::Type)`). -/
  | map (entries : List KMapEntry) (metaType : Option KValue)
  | str (s : List Nat)
  | simpleFunction
  | function
  | generator
  /-- An iterator value; its state is the list of outputs it will yield. -/
  | iterator (outs : List KOutput)
  | externalFunction
  | externalValue (typeName : List Nat)
  | indexRange
  | temporaryTuple
  | sequenceBuilder
  | stringBuilder

/-- One key/value entry of a map. -/
inductive KMapEntry where
  | mk (key : KValue) (value : KValue)

/-- The iterator output sum type ValueIteratorOutput. -/
inductive KOutput where
  | value (v : KValue)
  | pair (k v : KValue)
  | error (e : KError)

end

/-- Codepoint-string literal helper for canonical type names and message
fragments. -/
def strLit (s : String) : List Nat := s.data.map Char.toNat

/-- The method type_as_string of Value (value.rs): the canonical type name of a value,
except that a map's `@type` meta entry is consulted first. -/
def type_as_string : KValue → List Nat
  | .null => strLit "Null"
  | .bool _ => strLit "Bool"
  | .number (.F64 _) => strLit "Float"
  | .number (.I64 _) => strLit "Int"
  | .num2 _ _ => strLit "Num2"
  | .num4 _ _ _ _ => strLit "Num4"
  | .list _ => strLit "List"
  | .range _ _ => strLit "Range"
  | .indexRange => strLit "IndexRange"
  | .map _ metaType =>
    match metaType with
    | some (.str s) => s
    | some _ => strLit "Error: expected string for overloaded type"
    | none => strLit "Map"
  | .str _ => strLit "String"
  | .tuple _ => strLit "Tuple"
  | .simpleFunction => strLit "Function"
  | .function => strLit "Function"
  | .generator => strLit "Generator"
  | .externalFunction => strLit "ExternalFunction"
  | .externalValue t => t
  | .iterator _ => strLit "Iterator"
  | .temporaryTuple => strLit "TemporaryTuple"
  | .sequenceBuilder => strLit "SequenceBuilder"
  | .stringBuilder => strLit "StringBuilder"

/-- The predicate is_callable of Value (value.rs): true for SimpleFunction, Function and
ExternalFunction. -/
def is_callable : KValue → Bool
  | .simpleFunction => true
  | .function => true
  | .externalFunction => true
  | _ => false

/-- The predicate is_immutable of Value (value.rs): true for Null, Bool, Number, Num2,
Num4, Range and Str. -/
def is_immutable : KValue → Bool
  | .null => true
  | .bool _ => true
  | .number _ => true
  | .num2 _ _ => true
  | .num4 _ _ _ _ => true
  | .range _ _ => true
  | .str _ => true
  | _ => false

/-- The predicate is_iterable of Value (value.rs): true for Num2, Num4, Range, List,
Tuple, Map, Str and Iterator. -/
def is_iterable : KValue → Bool
  | .num2 _ _ => true
  | .num4 _ _ _ _ => true
  | .range _ _ => true
  | .list _ => true
  | .tuple _ => true
  | .map _ _ => true
  | .str _ => true
  | .iterator _ => true
  | _ => false

/-- The helper collect_pair (core/iterator.rs): folds a `ValuePair(k, v)` output into
`Value(Tuple(k, v))`, leaving other outputs unchanged. -/
def collect_pair : KOutput → KOutput
  | .pair first second => .value (.tuple [first, second])
  | o => o

/-- The predicate/function call shapes used by the iterator module:
`CallArgs::Single(v)` for plain values and `CallArgs::AsTuple(&[a, b])` for
key/value pairs. -/
inductive CallArgsV where
  | single (v : KValue)
  | asTuple (a b : KValue)

/-- A user callable as run by `vm.run_function`: the VM (not under src/) is
modelled by passing the callable's behaviour as a function into each
operation. -/
def Callable := CallArgsV → Except KError KValue

/-- The iteration loop of `iterator.all` (core/iterator.rs): runs the
predicate on each output, returns `false` at the first `false` result,
a type error at the first non-bool result, and `true` on exhaustion. -/
def allLoop (p : Callable) : List KOutput → Except KError KValue
  | [] => .ok (.bool true)
  | o :: rest =>
    let pr : Except KError KValue :=
      match o with
      | .value v => p (.single v)
      | .pair a b => p (.asTuple a b)
      | .error e => .error e
    match pr with
    | .ok (.bool result) =>
      if !result then .ok (.bool false) else allLoop p rest
    | .ok unexpected =>
      .error (.typeError "a Bool to be returned from the predicate"
        (type_as_string unexpected))
    | .error e => .error e

/-- The iteration loop of `iterator.any` (core/iterator.rs): symmetric to
`allLoop` with `true`/`false` exchanged. -/
def anyLoop (p : Callable) : List KOutput → Except KError KValue
  | [] => .ok (.bool false)
  | o :: rest =>
    let pr : Except KError KValue :=
      match o with
      | .value v => p (.single v)
      | .pair a b => p (.asTuple a b)
      | .error e => .error e
    match pr with
    | .ok (.bool result) =>
      if result then .ok (.bool true) else anyLoop p rest
    | .ok unexpected =>
      .error (.typeError "a Bool to be returned from the predicate"
        (type_as_string unexpected))
    | .error e => .error e

/-- The operation iterator.fold (core/iterator.rs): left-fold of `f` over the
iterator outputs (pairs first collected into tuples by `collect_pair`); `f` receives
`CallArgs::Separate(&[acc, item])`, modelled as a curried function. -/
def foldLoop (f : KValue → KValue → Except KError KValue) (acc : KValue) :
    List KOutput → Except KError KValue
  | [] => .ok acc
  | o :: rest =>
    match o with
    | .value v =>
      match f acc v with
      | .ok acc2 => foldLoop f acc2 rest
      | .error e => .error e
    | .pair a b =>
      match f acc (.tuple [a, b]) with
      | .ok acc2 => foldLoop f acc2 rest
      | .error e => .error e
    | .error e => .error e

/-- The key/value extraction step of `iterator.to_map` (core/iterator.rs):
pairs are used directly, 2-tuples are split, any other value becomes a key
with a Null value, and source errors are returned. -/
def toMapEntry : KOutput → Except KError (KValue × KValue)
  | .pair key value => .ok (key, value)
  | .value (.tuple [k, v]) => .ok (k, v)
  | .value value => .ok (value, .null)
  | .error e => .error e

/-- The iteration loop of `iterator.to_map` (core/iterator.rs): extracts a
key/value entry from each output and inserts it after checking
`key.is_immutable()`.  The result is the inserted entry sequence; the
`DataMap` key-deduplication of repeated keys is not modelled (no claim
concerns it). -/
def toMapLoop (acc : List (KValue × KValue)) :
    List KOutput → Except KError (List (KValue × KValue))
  | [] => .ok acc
  | o :: rest =>
    match toMapEntry o with
    | .error e => .error e
    | .ok (key, value) =>
      if !(is_immutable key) then
        .error (.immutableKeyError (type_as_string key))
      else
        toMapLoop (acc ++ [(key, value)]) rest

/-- The result of iterator.to_map for a source yielding the given outputs. -/
def to_map (outs : List KOutput) : Except KError (List (KValue × KValue)) :=
  toMapLoop [] outs

/-- The operation iterator.copy (core/iterator.rs): matches only an Iterator and
answers `iter.make_copy()`; every other argument slice falls through to the
type error.  `make_copy` (value_iterator.rs is not under src/) is modelled
per the spec as an independent cursor at the same logical position. -/
def copy (args : List KValue) : Except KError KValue :=
  match args with
  | [.iterator outs] => .ok (.iterator outs)
  | unexpected =>
    .error (.typeErrorWithSlice "an Iterator as argument"
      (unexpected.map type_as_string))

/-- The argument dispatch of `iterator.each` (core/iterator.rs): requires an
iterable first argument and a callable second argument, otherwise returns the
argument type error.  Construction of the lazy `Each` adaptor
(value_iterator.rs is not under src/) is modelled as plain success. -/
def eachDispatch (args : List KValue) : Except KError Unit :=
  match args with
  | [iterable, f] =>
    if is_iterable iterable && is_callable f then .ok ()
    else
      .error (.typeErrorWithSlice "an iterable value and a Function as arguments"
        (args.map type_as_string))
  | unexpected =>
    .error (.typeErrorWithSlice "an iterable value and a Function as arguments"
      (unexpected.map type_as_string))

/-- The helper compare_values (core/iterator.rs): compares two values with the VM's
`<` binary operator (passed in as `less`), returning the lesser unless
`invert` is set; a non-bool comparison result is a runtime error. -/
def compare_values (less : KValue → KValue → Except KError KValue)
    (a b : KValue) (invert : Bool) : Except KError KValue :=
  match less a b with
  | .error e => .error e
  | .ok (.bool true) => if invert then .ok b else .ok a
  | .ok (.bool false) => if invert then .ok a else .ok b
  | .ok other => .error (.boolFromLessError (type_as_string other))

/-- The accumulating loop of `run_iterator_comparison` (core/iterator.rs)
after the first item has seeded the accumulator. -/
def runCompLoop (less : KValue → KValue → Except KError KValue)
    (invert : Bool) (acc : KValue) : List KOutput → Except KError KValue
  | [] => .ok acc
  | o :: rest =>
    match collect_pair o with
    | .value v =>
      match compare_values less acc v invert with
      | .ok acc2 => runCompLoop less invert acc2 rest
      | .error e => .error e
    | .error e => .error e
    | .pair _ _ => .ok acc

/-- The driver run_iterator_comparison (core/iterator.rs), shared by
`iterator.min` (`invert = false`) and `iterator.max` (`invert = true`):
folds `compare_values` over the outputs, returning Null for an empty
source. -/
def run_iterator_comparison (less : KValue → KValue → Except KError KValue)
    (invert : Bool) : List KOutput → Except KError KValue
  | [] => .ok .null
  | o :: rest =>
    match collect_pair o with
    | .value v => runCompLoop less invert v rest
    | .error e => .error e
    | .pair _ _ => .ok .null

/-- Modelled from the spec: the VM's `<` binary operator on numbers
(vm.rs is not under src/) compares the two numbers numerically, per the
spec's IEEE-754 double / signed 64-bit integer numeric semantics. -/
def numLess (a b : KValue) : Except KError KValue :=
  match a, b with
  | .number x, .number y => .ok (.bool (decide (x.toRat < y.toRat)))
  | _, _ => .error (.external "comparison is only modelled on numbers")

/-- The output stream of an iterator over a sequence of numbers. -/
def numOutputs (ns : List KNumber) : List KOutput :=
  ns.map (fun n => KOutput.value (.number n))

/-- The pure accumulator step that `compare_values` performs for
`iterator.max` on numbers: replace the accumulator only when it compares
strictly less than the new item. -/
def stepMax (a v : KNumber) : KNumber :=
  if a.toRat < v.toRat then v else a

/-- The pure accumulator step that `compare_values` performs for
`iterator.min` on numbers: keep the accumulator when it compares strictly
less than the new item, otherwise take the new item. -/
def stepMin (a v : KNumber) : KNumber :=
  if a.toRat < v.toRat then a else v

/-- The index assignment `result[i] = n` on a `Num4` (num4.rs implements
`IndexMut` over the four components; out-of-range indices cannot occur in
`num4_from_iterator` because of the `take(4)`). -/
def num4Set (r : ℚ × ℚ × ℚ × ℚ) (i : Nat) (q : ℚ) : ℚ × ℚ × ℚ × ℚ :=
  match i with
  | 0 => (q, r.2.1, r.2.2.1, r.2.2.2)
  | 1 => (r.1, q, r.2.2.1, r.2.2.2)
  | 2 => (r.1, r.2.1, q, r.2.2.2)
  | _ => (r.1, r.2.1, r.2.2.1, q)

/-- The enumerated loop of `num4_from_iterator` (core/num4.rs): writes each
number into component `i`, raising a type error on a non-number item and
passing source errors through. -/
def num4FromIterLoop (i : Nat) (acc : ℚ × ℚ × ℚ × ℚ) :
    List KOutput → Except KError (ℚ × ℚ × ℚ × ℚ)
  | [] => .ok acc
  | o :: rest =>
    match collect_pair o with
    | .value (.number n) => num4FromIterLoop (i + 1) (num4Set acc i n.toRat) rest
    | .value unexpected =>
      .error (.typeErrorWithSlice "a Number" [type_as_string unexpected])
    | .error e => .error e
    | .pair _ _ => .ok acc

/-- The helper num4_from_iterator (core/num4.rs): takes up to the first four outputs
of the iterator and fills a default (all-zero) `Num4` with them; the f64→f32
narrowing of `n.into()` is modelled as exact. -/
def num4_from_iterator (outs : List KOutput) : Except KError (ℚ × ℚ × ℚ × ℚ) :=
  num4FromIterLoop 0 (0, 0, 0, 0) (outs.take 4)

/-- The items of a koto range: unit steps from `start` toward `stop`,
exclusive of `stop`, descending when `start > stop`. -/
def rangeList (start stop : Int) : List Int :=
  if start ≤ stop then (List.range (stop - start).toNat).map (fun i => start + i)
  else (List.range (start - stop).toNat).map (fun i => start - i)

/-- Modelled from the spec: `vm.make_iterator` (value_iterator.rs is not
under src/) turns an iterable value into its output stream per §4.1 of the
spec — lists and tuples yield their elements, maps yield key/value pairs in
insertion order, ranges yield unit-step numbers, Num2/Num4 yield their
components.  String iteration (by grapheme cluster) is left unmodelled
(`none`); no claim depends on it. -/
def make_iterator : KValue → Option (List KOutput)
  | .iterator outs => some outs
  | .list xs => some (xs.map .value)
  | .tuple xs => some (xs.map .value)
  | .range a b => some ((rangeList a b).map (fun i => .value (.number (.I64 i))))
  | .num2 a b => some [.value (.number (.F64 a)), .value (.number (.F64 b))]
  | .num4 a b c d =>
    some [.value (.number (.F64 a)), .value (.number (.F64 b)),
      .value (.number (.F64 c)), .value (.number (.F64 d))]
  | .map entries _ =>
    some (entries.map (fun e => match e with | .mk k v => KOutput.pair k v))
  | _ => none

/-- The constructor make_num4 (core/num4.rs): the argument dispatch, in source order.  The
outer `Option` is `none` only when the single argument is an iterable whose
iteration is not modelled (a string); every modelled branch is `some`.
The f64→f32 component narrowing is modelled as exact. -/
def make_num4 (args : List KValue) : Option (Except KError KValue) :=
  match args with
  | [.number n] => some (.ok (.num4 n.toRat n.toRat n.toRat n.toRat))
  | [.number n1, .number n2] => some (.ok (.num4 n1.toRat n2.toRat 0 0))
  | [.number n1, .number n2, .number n3] =>
    some (.ok (.num4 n1.toRat n2.toRat n3.toRat 0))
  | [.number n1, .number n2, .number n3, .number n4] =>
    some (.ok (.num4 n1.toRat n2.toRat n3.toRat n4.toRat))
  | [.num2 a b] => some (.ok (.num4 a b 0 0))
  | [.num4 a b c d] => some (.ok (.num4 a b c d))
  | [iterable] =>
    if is_iterable iterable then
      match make_iterator iterable with
      | some outs =>
        some ((num4_from_iterator outs).map (fun r => .num4 r.1 r.2.1 r.2.2.1 r.2.2.2))
      | none => none
    else
      some (.error (.typeErrorWithSlice "Numbers or an iterable as arguments"
        (args.map type_as_string)))
  | unexpected =>
    some (.error (.typeErrorWithSlice "Numbers or an iterable as arguments"
      (unexpected.map type_as_string)))

/-- The UTF-8 encoded length in bytes of a codepoint. -/
def utf8LenC (cp : Nat) : Nat :=
  if cp < 0x80 then 1
  else if cp < 0x800 then 2
  else if cp < 0x10000 then 3
  else 4

/-- The UTF-8 byte length of a codepoint string. -/
def byteLen (cs : List Nat) : Nat := (cs.map utf8LenC).sum

/-- Splits a codepoint string at exactly `k` encoded bytes; `none` when `k`
does not land on a character boundary (or exceeds the data). -/
def takeBytes : List Nat → Nat → Option (List Nat × List Nat)
  | cs, 0 => some ([], cs)
  | [], _ + 1 => none
  | c :: cs, k + 1 =>
    if utf8LenC c ≤ k + 1 then
      (takeBytes cs (k + 1 - utf8LenC c)).map (fun p => (c :: p.1, p.2))
    else none

/-- Rust's `str::get(a..b)` on a codepoint string with byte indices: `some`
exactly when `a ≤ b` and both indices land on character boundaries within
the data. -/
def strGet (cs : List Nat) (a b : Nat) : Option (List Nat) :=
  if a ≤ b then
    match takeBytes cs a with
    | some (_, rest) => (takeBytes rest (b - a)).map Prod.fst
    | none => none
  else none

/-- The string type ValueString (value_string.rs): a shared codepoint buffer plus byte
bounds. -/
structure KString where
  data : List Nat
  start : Nat
  stop : Nat
deriving DecidableEq, Repr

/-- The method as_str of ValueString: the slice within the bounds.  The `ValueString`
constructors guarantee the bounds are valid, so the default is never
reached for strings built by `mkString` / `with_bounds`. -/
def KString.asStr (s : KString) : List Nat :=
  (strGet s.data s.start s.stop).getD []

/-- The method with_bounds of ValueString (value_string.rs): rebases the requested
bounds onto the underlying buffer and checks they stay inside the current
bounds and on character boundaries. -/
def KString.with_bounds (s : KString) (a b : Nat) : Option KString :=
  let b2 := b + s.start
  let a2 := a + s.start
  if b2 ≤ s.stop ∧ (strGet s.data a2 b2).isSome then
    some ⟨s.data, a2, b2⟩
  else none

/-- A fresh ValueString covering its whole buffer (the From conversion). -/
def mkString (cs : List Nat) : KString := ⟨cs, 0, byteLen cs⟩

/-- Rust's `char::is_whitespace` (std, modelled): the Unicode White_Space
property. -/
def isWhitespaceC (cp : Nat) : Bool :=
  cp = 0x09 || cp = 0x0A || cp = 0x0B || cp = 0x0C || cp = 0x0D ||
  cp = 0x20 || cp = 0x85 || cp = 0xA0 || cp = 0x1680 ||
  (0x2000 ≤ cp && cp ≤ 0x200A) ||
  cp = 0x2028 || cp = 0x2029 || cp = 0x202F || cp = 0x205F || cp = 0x3000

/-- Rust's `str::find(pred)` (std, modelled): the byte index of the first
character satisfying the predicate. -/
def findIdxByte (p : Nat → Bool) : List Nat → Option Nat
  | [] => none
  | c :: cs =>
    if p c then some 0 else (findIdxByte p cs).map (fun i => utf8LenC c + i)

/-- Rust's `str::rfind(pred)` (std, modelled): the byte index of the start
of the last character satisfying the predicate. -/
def rfindIdxByte (p : Nat → Bool) : List Nat → Option Nat
  | [] => none
  | c :: cs =>
    match rfindIdxByte p cs with
    | some i => some (utf8LenC c + i)
    | none => if p c then some 0 else none

/-- The operation string.trim (core/string.rs): finds the first and last non-whitespace
characters and slices between them with `with_bounds(start..(end + 1))`,
where `end` is the byte index of the *start* of the last such character.
The source unwraps the `with_bounds` results; an unwrap of `None` is a
panic, modelled as `none`. -/
def trim (s : KString) : Option KString :=
  let cs := s.asStr
  match findIdxByte (fun c => !isWhitespaceC c) cs with
  | some start =>
    match rfindIdxByte (fun c => !isWhitespaceC c) cs with
    | some e => s.with_bounds start (e + 1)
    | none => none
  | none => s.with_bounds 0 0

/-- The byte-collection loop of `string.from_bytes` (core/string.rs): each
output must be a number convertible by `u8::try_from(n.as_i64())`, i.e. with
`as_i64` in `[0, 255]`; a non-number is a type error and source errors pass
through. -/
def collectBytesLoop : List KOutput → Except KError (List Nat)
  | [] => .ok []
  | o :: rest =>
    match collect_pair o with
    | .value (.number n) =>
      if 0 ≤ n.as_i64 ∧ n.as_i64 ≤ 255 then
        (collectBytesLoop rest).map (fun bs => n.as_i64.toNat :: bs)
      else .error (.byteRangeError n)
    | .value unexpected => .error (.typeError "a number" (type_as_string unexpected))
    | .error e => .error e
    | .pair _ _ => .ok []

/-- Whether a byte is a UTF-8 continuation byte. -/
def isCont (b : Nat) : Bool := 0x80 ≤ b && b ≤ 0xBF

/-- The lower/upper bound restrictions on the first continuation byte of a
three-byte sequence (excludes overlong forms and surrogates). -/
def contOk3 (b0 b1 : Nat) : Bool :=
  if b0 = 0xE0 then 0xA0 ≤ b1 else if b0 = 0xED then b1 ≤ 0x9F else true

/-- The restrictions on the first continuation byte of a four-byte sequence
(excludes overlong forms and codepoints above U+10FFFF). -/
def contOk4 (b0 b1 : Nat) : Bool :=
  if b0 = 0xF0 then 0x90 ≤ b1 else if b0 = 0xF4 then b1 ≤ 0x8F else true

/-- Rust's `String::from_utf8` validation/decoding (std, modelled): decodes
a byte list to codepoints, rejecting malformed, overlong, surrogate and
out-of-range sequences. -/
def utf8Decode (bytes : List Nat) : Option (List Nat) :=
  match bytes with
  | [] => some []
  | b0 :: rest =>
    if b0 < 0x80 then (utf8Decode rest).map (fun cs => b0 :: cs)
    else if 0xC2 ≤ b0 && b0 ≤ 0xDF then
      match rest with
      | b1 :: r =>
        if isCont b1 then
          (utf8Decode r).map (fun cs => ((b0 - 0xC0) * 0x40 + (b1 - 0x80)) :: cs)
        else none
      | [] => none
    else if 0xE0 ≤ b0 && b0 ≤ 0xEF then
      match rest with
      | b1 :: b2 :: r =>
        if contOk3 b0 b1 && isCont b1 && isCont b2 then
          (utf8Decode r).map
            (fun cs => ((b0 - 0xE0) * 0x1000 + (b1 - 0x80) * 0x40 + (b2 - 0x80)) :: cs)
        else none
      | _ => none
    else if 0xF0 ≤ b0 && b0 ≤ 0xF4 then
      match rest with
      | b1 :: b2 :: b3 :: r =>
        if contOk4 b0 b1 && isCont b1 && isCont b2 && isCont b3 then
          (utf8Decode r).map
            (fun cs => ((b0 - 0xF0) * 0x40000 + (b1 - 0x80) * 0x1000
              + (b2 - 0x80) * 0x40 + (b3 - 0x80)) :: cs)
        else none
      | _ => none
    else none

/-- The operation string.from_bytes (core/string.rs): collects bytes from the iterable's
outputs, then validates them as UTF-8, producing the decoded string. -/
def from_bytes (outs : List KOutput) : Except KError KValue :=
  match collectBytesLoop outs with
  | .error e => .error e
  | .ok bytes =>
    match utf8Decode bytes with
    | some cps => .ok (.str cps)
    | none => .error .utf8Error

/-- The koto module entries built by make_module (core/koto.rs), in insertion
order; `add_fn` entries are host-function values. -/
def koto_module : List (String × KValue) :=
  [("args", .tuple []),
   ("exports", .externalFunction),
   ("script_dir", .null),
   ("script_path", .null),
   ("type", .externalFunction)]

/-- The canonical type name of each value kind, ignoring meta entries
(spec-side helper for the `koto.type` claim). -/
def canonicalTypeName : KValue → List Nat
  | .null => strLit "Null"
  | .bool _ => strLit "Bool"
  | .number (.F64 _) => strLit "Float"
  | .number (.I64 _) => strLit "Int"
  | .num2 _ _ => strLit "Num2"
  | .num4 _ _ _ _ => strLit "Num4"
  | .list _ => strLit "List"
  | .range _ _ => strLit "Range"
  | .indexRange => strLit "IndexRange"
  | .map _ _ => strLit "Map"
  | .str _ => strLit "String"
  | .tuple _ => strLit "Tuple"
  | .simpleFunction => strLit "Function"
  | .function => strLit "Function"
  | .generator => strLit "Generator"
  | .externalFunction => strLit "ExternalFunction"
  | .externalValue t => t
  | .iterator _ => strLit "Iterator"
  | .temporaryTuple => strLit "TemporaryTuple"
  | .sequenceBuilder => strLit "SequenceBuilder"
  | .stringBuilder => strLit "StringBuilder"

/-- The type-name function as worded by the amended claim: the canonical
name of the value's kind, except that a map carrying a `@type` meta entry
reports that entry's string, or a fixed error text when the entry is not a
string. -/
def specTypeName : KValue → List Nat
  | .map _ (some (.str s)) => s
  | .map _ (some _) => strLit "Error: expected string for overloaded type"
  | v => canonicalTypeName v

/-- The predicate answered `true` on this output (the hypothesis under which
`iterator.all` keeps iterating). -/
def PredTrue (p : Callable) : KOutput → Prop
  | .value v => p (.single v) = .ok (.bool true)
  | .pair a b => p (.asTuple a b) = .ok (.bool true)
  | .error _ => False

/-- The predicate answered `false` on this output (the hypothesis under
which `iterator.any` keeps iterating). -/
def PredFalse (p : Callable) : KOutput → Prop
  | .value v => p (.single v) = .ok (.bool false)
  | .pair a b => p (.asTuple a b) = .ok (.bool false)
  | .error _ => False

/-- C1 counterexample: `make_num4` applied to the single number 1 returns
the broadcast `Num4 (1, 1, 1, 1)`, not the zero-padded `Num4 (1, 0, 0, 0)`
the claim requires. -/
theorem make_num4_single_broadcasts_counterexample :
    make_num4 [.number (.I64 1)] = some (.ok (.num4 1 1 1 1)) ∧
      KValue.num4 1 1 1 1 ≠ KValue.num4 1 0 0 0 := by
  constructor
  · rfl
  · simp

/-- C1 (amended): `make_num4` with k number arguments fills the first k
components with those numbers and the remaining components with 0 when
2 ≤ k ≤ 4, while a single number is broadcast into all four components. -/
theorem make_num4_number_arguments (n1 n2 n3 n4 : KNumber) :
    make_num4 [.number n1] =
      some (.ok (.num4 n1.toRat n1.toRat n1.toRat n1.toRat)) ∧
    make_num4 [.number n1, .number n2] =
      some (.ok (.num4 n1.toRat n2.toRat 0 0)) ∧
    make_num4 [.number n1, .number n2, .number n3] =
      some (.ok (.num4 n1.toRat n2.toRat n3.toRat 0)) ∧
    make_num4 [.number n1, .number n2, .number n3, .number n4] =
      some (.ok (.num4 n1.toRat n2.toRat n3.toRat n4.toRat)) :=
  ⟨rfl, rfl, rfl, rfl⟩

/-- C3: `string.trim` panics on `"é"` (codepoint 0xE9, two UTF-8 bytes).
`rfind` reports byte index 0 (the start of the final character), so
`with_bounds(0..1)` asks for a slice ending inside the two-byte character;
`str::get` rejects it, `with_bounds` returns `None`, and the source's
`.unwrap()` panics — modelled as `none`.  The character is not whitespace,
so the claim requires trim to return the string unchanged. -/
theorem string_trim_panics_on_multibyte_final_char :
    trim (mkString [0xE9]) = none ∧
      (mkString [0xE9]).asStr = [0xE9] ∧
      isWhitespaceC 0xE9 = false := by
  refine ⟨rfl, rfl, rfl⟩

/-- C4 counterexample: a list is iterable, yet `iterator.copy` rejects it
with the `"an Iterator as argument"` type error, refuting the claim that
`copy` succeeds on every iterable value. -/
theorem iterator_copy_rejects_list_counterexample :
    is_iterable (.list []) = true ∧
      copy [.list []] =
        .error (.typeErrorWithSlice "an Iterator as argument" [strLit "List"]) :=
  ⟨rfl, rfl⟩

/-- C4 (amended): `iterator.copy` matches only an `Iterator` argument, for
which it returns an independent cursor at the same position; every other
iterable value receives the `"an Iterator as argument"` type error. -/
theorem iterator_copy_iterator_only :
    (∀ outs, copy [.iterator outs] = .ok (.iterator outs)) ∧
    (∀ v, is_iterable v = true → (∀ outs, v ≠ .iterator outs) →
      copy [v] =
        .error (.typeErrorWithSlice "an Iterator as argument" [type_as_string v])) := by
  constructor
  · intro outs
    rfl
  · intro v hiter hnotiter
    cases v <;> simp_all [copy, is_iterable]

/-- C4 witness: `iterator_copy_iterator_only` applied to the empty list. -/
theorem iterator_copy_iterator_only_witness :
    copy [.list []] =
      .error (.typeErrorWithSlice "an Iterator as argument" [strLit "List"]) :=
  iterator_copy_iterator_only.2 (.list []) rfl (fun _ h => by cases h)

/-- C9 counterexample: a map whose `@type` meta entry is the number 1 is
reported as `"Error: expected string for overloaded type"`, not as its
kind's canonical name `"Map"` as the claim requires. -/
theorem koto_type_nonstring_meta_counterexample :
    type_as_string (.map [] (some (.number (.I64 1)))) =
        strLit "Error: expected string for overloaded type" ∧
      strLit "Error: expected string for overloaded type" ≠ strLit "Map" := by
  refine ⟨rfl, ?_⟩
  decide

/-- C9 (amended): a fresh koto module maps `args` to an empty tuple and
`script_dir`/`script_path` to null, and `koto.type` reports each value's
canonical type name, except that a map carrying a `@type` meta entry
reports that entry when it is a string and the fixed
`"Error: expected string for overloaded type"` text otherwise. -/
theorem koto_module_entries_and_type :
    koto_module.lookup "args" = some (.tuple []) ∧
    koto_module.lookup "script_dir" = some .null ∧
    koto_module.lookup "script_path" = some .null ∧
    (∀ v, type_as_string v = specTypeName v) := by
  refine ⟨rfl, rfl, rfl, ?_⟩
  intro v
  match v with
  | .map entries metaType =>
    match metaType with
    | none => rfl
    | some m => cases m <;> rfl
  | .null | .bool _ | .num2 _ _ | .num4 _ _ _ _ | .range _ _ | .list _
  | .tuple _ | .str _ | .simpleFunction | .function | .generator
  | .iterator _ | .externalFunction | .externalValue _ | .indexRange
  | .temporaryTuple | .sequenceBuilder | .stringBuilder => rfl
  | .number n => cases n <;> rfl

/-- C10: only SimpleFunction, Function and ExternalFunction values are
callable; a Generator value is not, so `iterator.each` (and the other
operations sharing the same `is_callable` guard) rejects a generator
function argument with the operation's argument type error. -/
theorem is_callable_excludes_generator :
    (∀ v, is_callable v = true ↔
      (v = .simpleFunction ∨ v = .function ∨ v = .externalFunction)) ∧
    is_callable .generator = false ∧
    (∀ v, is_iterable v = true →
      eachDispatch [v, .generator] =
        .error (.typeErrorWithSlice "an iterable value and a Function as arguments"
          [type_as_string v, strLit "Generator"])) := by
  refine ⟨?_, rfl, ?_⟩
  · intro v
    cases v <;> simp [is_callable]
  · intro v hiter
    cases v <;> simp_all [eachDispatch, is_iterable, is_callable, type_as_string]

/-- C10 witness: `is_callable_excludes_generator` applied to an empty-list
iterable. -/
theorem is_callable_excludes_generator_witness :
    eachDispatch [.list [], .generator] =
      .error (.typeErrorWithSlice "an iterable value and a Function as arguments"
        [strLit "List", strLit "Generator"]) :=
  is_callable_excludes_generator.2.2 (.list []) rfl

/-- C7: `iterator.fold` returns `init` on an empty source with `f` never
invoked, equals the monadic left-fold on a source of plain values (so a
never-failing `f` yields exactly the iterated application of `f` to `init`
and the items in order),
and returns the first error — from `f` (via the fold equation) or from the
source — immediately. -/
theorem iterator_fold_left_fold :
    (∀ (f : KValue → KValue → Except KError KValue) init,
      foldLoop f init [] = .ok init) ∧
    (∀ (f : KValue → KValue → Except KError KValue) init vs,
      foldLoop f init (vs.map .value) = List.foldlM f init vs) ∧
    (∀ (g : KValue → KValue → KValue) (init : KValue) (vs : List KValue),
      foldLoop (fun a b => .ok (g a b)) init (vs.map .value) =
        .ok (vs.foldl g init)) ∧
    (∀ (f : KValue → KValue → Except KError KValue) (init : KValue)
        (vs : List KValue) (e : KError) (rest : List KOutput),
      foldLoop f init (vs.map .value ++ .error e :: rest) =
        (List.foldlM f init vs >>= fun _ => Except.error e)) := by
  have hmain : ∀ (f : KValue → KValue → Except KError KValue)
      (vs : List KValue) (init : KValue),
      foldLoop f init (vs.map .value) = List.foldlM f init vs := by
    intro f vs
    induction vs with
    | nil => intro init; rfl
    | cons v vs ih =>
      intro init
      simp only [List.map_cons, List.foldlM_cons, foldLoop]
      cases h : f init v with
      | ok acc2 => exact ih acc2
      | error e => rfl
  refine ⟨fun f init => rfl, fun f init vs => hmain f vs init, ?_, ?_⟩
  · intro g init vs
    rw [hmain]
    induction vs generalizing init with
    | nil => rfl
    | cons v vs ih =>
      rw [List.foldlM_cons, List.foldl_cons]
      exact ih (g init v)
  · intro f init vs e rest
    induction vs generalizing init with
    | nil => simp [foldLoop]
    | cons v vs ih =>
      simp only [List.map_cons, List.cons_append, List.foldlM_cons, foldLoop]
      cases h : f init v with
      | ok acc2 => exact ih acc2
      | error e2 => rfl

/-- C6: `iterator.all` answers `false` at the first item whose predicate
result is `false` without consulting any later item, answers `true` when
the predicate holds on every item, and stops with the
`"a Bool to be returned from the predicate"` type error at the first
non-bool predicate result; `iterator.any` behaves symmetrically with
`true` and `false` exchanged. -/
theorem iterator_all_any_short_circuit :
    (∀ (p : Callable) pre v rest, (∀ o ∈ pre, PredTrue p o) →
      p (.single v) = .ok (.bool false) →
      allLoop p (pre ++ .value v :: rest) = .ok (.bool false)) ∧
    (∀ (p : Callable) outs, (∀ o ∈ outs, PredTrue p o) →
      allLoop p outs = .ok (.bool true)) ∧
    (∀ (p : Callable) pre v rest u, (∀ o ∈ pre, PredTrue p o) →
      p (.single v) = .ok u → (∀ b, u ≠ .bool b) →
      allLoop p (pre ++ .value v :: rest) =
        .error (.typeError "a Bool to be returned from the predicate"
          (type_as_string u))) ∧
    (∀ (p : Callable) pre v rest, (∀ o ∈ pre, PredFalse p o) →
      p (.single v) = .ok (.bool true) →
      anyLoop p (pre ++ .value v :: rest) = .ok (.bool true)) ∧
    (∀ (p : Callable) outs, (∀ o ∈ outs, PredFalse p o) →
      anyLoop p outs = .ok (.bool false)) ∧
    (∀ (p : Callable) pre v rest u, (∀ o ∈ pre, PredFalse p o) →
      p (.single v) = .ok u → (∀ b, u ≠ .bool b) →
      anyLoop p (pre ++ .value v :: rest) =
        .error (.typeError "a Bool to be returned from the predicate"
          (type_as_string u))) := by
  have hallskip : ∀ (p : Callable) pre rest, (∀ o ∈ pre, PredTrue p o) →
      allLoop p (pre ++ rest) = allLoop p rest := by
    intro p pre rest htrue
    induction pre with
    | nil => rfl
    | cons o pre ih =>
      have ho := htrue o (List.mem_cons_self o pre)
      have hrest : ∀ x ∈ pre, PredTrue p x :=
        fun x hx => htrue x (List.mem_cons_of_mem o hx)
      cases o with
      | value u => simp only [PredTrue] at ho; simp [allLoop, ho, ih hrest]
      | pair a b => simp only [PredTrue] at ho; simp [allLoop, ho, ih hrest]
      | error e => simp only [PredTrue] at ho
  have hanyskip : ∀ (p : Callable) pre rest, (∀ o ∈ pre, PredFalse p o) →
      anyLoop p (pre ++ rest) = anyLoop p rest := by
    intro p pre rest hfalse
    induction pre with
    | nil => rfl
    | cons o pre ih =>
      have ho := hfalse o (List.mem_cons_self o pre)
      have hrest : ∀ x ∈ pre, PredFalse p x :=
        fun x hx => hfalse x (List.mem_cons_of_mem o hx)
      cases o with
      | value u => simp only [PredFalse] at ho; simp [anyLoop, ho, ih hrest]
      | pair a b => simp only [PredFalse] at ho; simp [anyLoop, ho, ih hrest]
      | error e => simp only [PredFalse] at ho
  refine ⟨?_, ?_, ?_, ?_, ?_, ?_⟩
  · intro p pre v rest htrue hfalse
    rw [hallskip p pre _ htrue]
    simp [allLoop, hfalse]
  · intro p outs htrue
    have := hallskip p outs [] htrue
    simpa using this
  · intro p pre v rest u htrue hu hnotbool
    rw [hallskip p pre _ htrue]
    cases u with
    | bool b => exact absurd rfl (hnotbool b)
    | _ => simp [allLoop, hu]
  · intro p pre v rest hfalse htrue
    rw [hanyskip p pre _ hfalse]
    simp [anyLoop, htrue]
  · intro p outs hfalse
    have := hanyskip p outs [] hfalse
    simpa using this
  · intro p pre v rest u hfalse hu hnotbool
    rw [hanyskip p pre _ hfalse]
    cases u with
    | bool b => exact absurd rfl (hnotbool b)
    | _ => simp [anyLoop, hu]

/-- C6 witness: `iterator_all_any_short_circuit` applied with a constantly
false predicate to a source whose second output is an error: `all` answers
`false` without reaching the error. -/
theorem iterator_all_any_short_circuit_witness :
    allLoop (fun _ => .ok (.bool false))
      ([] ++ .value .null :: [.error (.external "unvisited")]) =
      .ok (.bool false) :=
  iterator_all_any_short_circuit.1 (fun _ => .ok (.bool false)) [] .null
    [.error (.external "unvisited")] (by simp) rfl

/-- Every entry of a successful `toMapLoop` run either was already in the
accumulator or passed the `is_immutable` key check. -/
theorem toMapLoop_ok_mem (outs : List KOutput) :
    ∀ acc m, toMapLoop acc outs = .ok m →
      ∀ p ∈ m, p ∈ acc ∨ is_immutable p.1 = true := by
  induction outs with
  | nil =>
    intro acc m h p hp
    simp only [toMapLoop] at h
    cases h
    exact Or.inl hp
  | cons o rest ih =>
    intro acc m h p hp
    simp only [toMapLoop] at h
    cases he : toMapEntry o with
    | error e => rw [he] at h; cases h
    | ok kv =>
      obtain ⟨k, v⟩ := kv
      rw [he] at h
      simp only at h
      by_cases hk : is_immutable k = true
      · rw [hk] at h
        simp only [Bool.not_true, Bool.false_eq_true, if_false] at h
        rcases ih (acc ++ [(k, v)]) m h p hp with hmem | himm
        · rcases List.mem_append.mp hmem with ha | hb
          · exact Or.inl ha
          · simp only [List.mem_singleton] at hb
            subst hb
            exact Or.inr hk
        · exact Or.inr himm
      · rw [Bool.not_eq_true] at hk
        rw [hk] at h
        simp only [Bool.not_false, if_true] at h
        cases h


/-- A successful `toMapLoop` prefix run continues on appended outputs from
the accumulated entries. -/
theorem toMapLoop_append (pre : List KOutput) :
    ∀ acc m, toMapLoop acc pre = .ok m →
      ∀ tail, toMapLoop acc (pre ++ tail) = toMapLoop m tail := by
  induction pre with
  | nil =>
    intro acc m h tail
    simp only [toMapLoop] at h
    cases h
    rfl
  | cons o rest ih =>
    intro acc m h tail
    simp only [toMapLoop] at h
    simp only [List.cons_append, toMapLoop]
    cases he : toMapEntry o with
    | error e => rw [he] at h; cases h
    | ok kv =>
      obtain ⟨k, v⟩ := kv
      rw [he] at h
      simp only at h ⊢
      by_cases hk : is_immutable k = true
      · rw [hk] at h ⊢
        simp only [Bool.not_true, Bool.false_eq_true, if_false] at h ⊢
        exact ih (acc ++ [(k, v)]) m h tail
      · rw [Bool.not_eq_true] at hk
        rw [hk] at h
        simp only [Bool.not_false, if_true] at h
        cases h

/-- C5: `iterator.to_map` inserts only immutable keys — every entry of a
successful result has an immutable key — and as soon as a source output
yields a non-immutable key, it returns the
runtime error naming the offending value's type, inserting nothing further. -/
theorem iterator_to_map_immutable_keys :
    (∀ outs m, to_map outs = .ok m → ∀ p ∈ m, is_immutable p.1 = true) ∧
    (∀ pre m o rest k v, to_map pre = .ok m →
      toMapEntry o = .ok (k, v) → is_immutable k = false →
      to_map (pre ++ o :: rest) =
        .error (.immutableKeyError (type_as_string k))) := by
  constructor
  · intro outs m h p hp
    rcases toMapLoop_ok_mem outs [] m h p hp with hmem | himm
    · cases hmem
    · exact himm
  · intro pre m o rest k v hpre hentry hmut
    unfold to_map at hpre ⊢
    rw [toMapLoop_append pre [] m hpre (o :: rest)]
    simp only [toMapLoop, hentry, hmut]
    rfl

/-- C5 witness: `iterator_to_map_immutable_keys` applied to a source whose
single output is a list value: the list would become the key, and the run
fails with the error naming `List`. -/
theorem iterator_to_map_immutable_keys_witness :
    to_map ([] ++ .value (.list []) :: []) =
      .error (.immutableKeyError (strLit "List")) :=
  iterator_to_map_immutable_keys.2 [] [] (.value (.list [])) [] (.list []) .null
    rfl rfl rfl

/-- A successful byte-collection prefix prepends its bytes to whatever the
remaining outputs collect. -/
theorem collectBytesLoop_append (pre : List KOutput) :
    ∀ bs, collectBytesLoop pre = .ok bs → ∀ tail,
      collectBytesLoop (pre ++ tail) =
        match collectBytesLoop tail with
        | .ok cs => .ok (bs ++ cs)
        | .error e => .error e := by
  induction pre with
  | nil =>
    intro bs h tail
    simp only [collectBytesLoop] at h
    cases h
    cases hc : collectBytesLoop tail <;> simp [hc]
  | cons o rest ih =>
    intro bs h tail
    simp only [collectBytesLoop] at h
    simp only [List.cons_append, collectBytesLoop]
    cases o with
    | error e => simp only [collect_pair] at h ⊢; cases h
    | pair a b => simp only [collect_pair] at h ⊢; cases h
    | value v =>
      cases v with
      | number n =>
        simp only [collect_pair] at h ⊢
        by_cases hin : 0 ≤ n.as_i64 ∧ n.as_i64 ≤ 255
        · rw [if_pos hin] at h ⊢
          cases hr : collectBytesLoop rest with
          | error e => rw [hr] at h; cases h
          | ok bs2 =>
            rw [hr] at h
            simp only [Except.map] at h
            cases h
            rw [List.append_eq, ih bs2 hr tail]
            cases hc : collectBytesLoop tail <;> simp [Except.map]
        · rw [if_neg hin] at h; cases h
      | null => simp only [collect_pair] at h ⊢; cases h
      | bool b => simp only [collect_pair] at h ⊢; cases h
      | num2 a b => simp only [collect_pair] at h ⊢; cases h
      | num4 a b c d => simp only [collect_pair] at h ⊢; cases h
      | range a b => simp only [collect_pair] at h ⊢; cases h
      | list xs => simp only [collect_pair] at h ⊢; cases h
      | tuple xs => simp only [collect_pair] at h ⊢; cases h
      | map es m => simp only [collect_pair] at h ⊢; cases h
      | str s => simp only [collect_pair] at h ⊢; cases h
      | simpleFunction => simp only [collect_pair] at h ⊢; cases h
      | function => simp only [collect_pair] at h ⊢; cases h
      | generator => simp only [collect_pair] at h ⊢; cases h
      | iterator outs => simp only [collect_pair] at h ⊢; cases h
      | externalFunction => simp only [collect_pair] at h ⊢; cases h
      | externalValue t => simp only [collect_pair] at h ⊢; cases h
      | indexRange => simp only [collect_pair] at h ⊢; cases h
      | temporaryTuple => simp only [collect_pair] at h ⊢; cases h
      | sequenceBuilder => simp only [collect_pair] at h ⊢; cases h
      | stringBuilder => simp only [collect_pair] at h ⊢; cases h

/-- C8: `string.from_bytes` fails with the byte-range error at the first
number whose integer value leaves `[0, 255]`, collects in-range numbers as
their bytes, fails UTF-8 validation with the
`"Input failed UTF-8 validation"` error, otherwise returns the string
decoded from exactly the collected bytes, and rejects a non-number element
with the `"a number"` type error. -/
theorem string_from_bytes_spec :
    (∀ pre bs n rest, collectBytesLoop pre = .ok bs →
      ¬(0 ≤ KNumber.as_i64 n ∧ KNumber.as_i64 n ≤ 255) →
      from_bytes (pre ++ .value (.number n) :: rest) =
        .error (.byteRangeError n)) ∧
    (∀ ns : List KNumber, (∀ n ∈ ns, 0 ≤ n.as_i64 ∧ n.as_i64 ≤ 255) →
      collectBytesLoop (numOutputs ns) =
        .ok (ns.map (fun n => n.as_i64.toNat))) ∧
    (∀ outs bs, collectBytesLoop outs = .ok bs → utf8Decode bs = none →
      from_bytes outs = .error .utf8Error) ∧
    (∀ outs bs cps, collectBytesLoop outs = .ok bs →
      utf8Decode bs = some cps → from_bytes outs = .ok (.str cps)) ∧
    (∀ pre bs v rest, collectBytesLoop pre = .ok bs →
      (∀ n, v ≠ .number n) →
      from_bytes (pre ++ .value v :: rest) =
        .error (.typeError "a number" (type_as_string v))) := by
  refine ⟨?_, ?_, ?_, ?_, ?_⟩
  · intro pre bs n rest hpre hout
    unfold from_bytes
    rw [collectBytesLoop_append pre bs hpre]
    simp only [collectBytesLoop, collect_pair]
    rw [if_neg hout]
  · intro ns hns
    induction ns with
    | nil => rfl
    | cons n ns ih =>
      have hn := hns n (List.mem_cons_self n ns)
      have hrest : ∀ x ∈ ns, 0 ≤ x.as_i64 ∧ x.as_i64 ≤ 255 :=
        fun x hx => hns x (List.mem_cons_of_mem n hx)
      simp only [numOutputs, List.map_cons, collectBytesLoop, collect_pair]
      rw [if_pos hn]
      rw [show collectBytesLoop (List.map (fun n => KOutput.value (.number n)) ns)
          = collectBytesLoop (numOutputs ns) from rfl]
      rw [ih hrest]
      rfl
  · intro outs bs h hdec
    unfold from_bytes
    rw [h]
    simp [hdec]
  · intro outs bs cps h hdec
    unfold from_bytes
    rw [h]
    simp [hdec]
  · intro pre bs v rest hpre hnotnum
    unfold from_bytes
    rw [collectBytesLoop_append pre bs hpre]
    cases v with
    | number n => exact absurd rfl (hnotnum n)
    | null => rfl
    | bool b => rfl
    | num2 a b => rfl
    | num4 a b c d => rfl
    | range a b => rfl
    | list xs => rfl
    | tuple xs => rfl
    | map es m => rfl
    | str s => rfl
    | simpleFunction => rfl
    | function => rfl
    | generator => rfl
    | iterator o2 => rfl
    | externalFunction => rfl
    | externalValue t => rfl
    | indexRange => rfl
    | temporaryTuple => rfl
    | sequenceBuilder => rfl
    | stringBuilder => rfl

/-- C8 witness: `string_from_bytes_spec` applied to the failure scenario
`from_bytes [300]` — the byte-range error — and to the bytes of `"hi"`,
which decode back to `"hi"`. -/
theorem string_from_bytes_spec_witness :
    from_bytes ([] ++ .value (.number (.I64 300)) :: []) =
        .error (.byteRangeError (.I64 300)) ∧
      from_bytes (numOutputs [.I64 104, .I64 105]) = .ok (.str [104, 105]) :=
  ⟨string_from_bytes_spec.1 [] [] (.I64 300) [] rfl (by decide),
   string_from_bytes_spec.2.2.2.1 (numOutputs [.I64 104, .I64 105])
     [104, 105] [104, 105]
     (string_from_bytes_spec.2.1 [.I64 104, .I64 105] (by decide)) rfl⟩

/-- Evaluating compare_values on two numbers under the modelled numeric less-than: for
`max` (`invert = true`) the accumulator advances exactly per `stepMax`, for
`min` per `stepMin`. -/
theorem compare_values_num (x v : KNumber) (invert : Bool) :
    compare_values numLess (.number x) (.number v) invert =
      .ok (.number (if invert then stepMax x v else stepMin x v)) := by
  unfold compare_values numLess stepMax stepMin
  by_cases hlt : x.toRat < v.toRat
  · cases invert <;> simp [hlt]
  · cases invert <;> simp [hlt]

/-- The comparison loop over a number stream is the pure left fold of the
corresponding accumulator step. -/
theorem runCompLoop_numbers (invert : Bool) (xs : List KNumber) :
    ∀ x : KNumber,
      runCompLoop numLess invert (.number x) (numOutputs xs) =
        .ok (.number (xs.foldl (fun a v => if invert then stepMax a v else stepMin a v) x)) := by
  induction xs with
  | nil => intro x; rfl
  | cons v vs ih =>
    intro x
    simp only [numOutputs, List.map_cons, runCompLoop, collect_pair,
      compare_values_num, List.foldl_cons]
    exact ih _

/-- Evaluating run_iterator_comparison over a nonempty number stream computes the
left fold of the per-invert accumulator step seeded with the first item. -/
theorem run_iterator_comparison_numbers (invert : Bool) (x : KNumber)
    (xs : List KNumber) :
    run_iterator_comparison numLess invert (numOutputs (x :: xs)) =
      .ok (.number (xs.foldl (fun a v => if invert then stepMax a v else stepMin a v) x)) :=
  runCompLoop_numbers invert xs x

/-- The `stepMax` fold keeps the earliest item attaining the maximum: the
result splits the input into a strictly-smaller prefix and a
no-larger suffix. -/
theorem foldl_stepMax_split (xs : List KNumber) :
    ∀ x : KNumber, ∃ pre post,
      x :: xs = pre ++ (List.foldl stepMax x xs) :: post ∧
      (∀ v ∈ pre, v.toRat < (List.foldl stepMax x xs).toRat) ∧
      (∀ v ∈ post, v.toRat ≤ (List.foldl stepMax x xs).toRat) := by
  induction xs with
  | nil =>
    intro x
    exact ⟨[], [], rfl, by simp, by simp⟩
  | cons y ys ih =>
    intro x
    rw [List.foldl_cons]
    by_cases h : x.toRat < y.toRat
    · have hstep : stepMax x y = y := by simp [stepMax, h]
      rw [hstep]
      obtain ⟨pre, post, heq, hpre, hpost⟩ := ih y
      have hyr : y.toRat ≤ (List.foldl stepMax y ys).toRat := by
        cases pre with
        | nil =>
          rw [List.nil_append] at heq
          injection heq with h1 h2
          rw [← h1]
        | cons p pre2 =>
          rw [List.cons_append] at heq
          injection heq with h1 h2
          have hp : p ∈ p :: pre2 := List.mem_cons_self p pre2
          have := hpre p hp
          rw [← h1] at this
          exact le_of_lt this
      have hxr : x.toRat < (List.foldl stepMax y ys).toRat :=
        lt_of_lt_of_le h hyr
      refine ⟨x :: pre, post, ?_, ?_, hpost⟩
      · rw [List.cons_append, ← heq]
      · intro v hv
        rcases List.mem_cons.mp hv with rfl | hv2
        · exact hxr
        · exact hpre v hv2
    · have hstep : stepMax x y = x := by simp [stepMax, h]
      rw [hstep]
      obtain ⟨pre, post, heq, hpre, hpost⟩ := ih x
      have hyx : y.toRat ≤ x.toRat := le_of_not_lt h
      cases pre with
      | nil =>
        rw [List.nil_append] at heq
        injection heq with h1 h2
        refine ⟨[], y :: ys, ?_, by simp, ?_⟩
        · rw [List.nil_append, ← h1]
        · intro v hv
          rcases List.mem_cons.mp hv with rfl | hv2
          · rw [← h1]; exact hyx
          · rw [h2] at hv2
            exact hpost v hv2
      | cons p pre2 =>
        rw [List.cons_append] at heq
        injection heq with h1 h2
        have hxr : x.toRat < (List.foldl stepMax x ys).toRat := by
          have hp : p ∈ p :: pre2 := List.mem_cons_self p pre2
          have := hpre p hp
          rw [← h1] at this
          exact this
        refine ⟨x :: y :: pre2, post, ?_, ?_, hpost⟩
        · rw [List.cons_append, List.cons_append, ← h2]
        · intro v hv
          rcases List.mem_cons.mp hv with rfl | hv2
          · exact hxr
          · rcases List.mem_cons.mp hv2 with rfl | hv3
            · exact lt_of_le_of_lt hyx hxr
            · exact hpre v (List.mem_cons_of_mem p hv3)

/-- The `stepMin` fold keeps the latest item attaining the minimum: the
result splits the input into a no-smaller prefix and a strictly-larger
suffix. -/
theorem foldl_stepMin_split (xs : List KNumber) :
    ∀ x : KNumber, ∃ pre post,
      x :: xs = pre ++ (List.foldl stepMin x xs) :: post ∧
      (∀ v ∈ pre, (List.foldl stepMin x xs).toRat ≤ v.toRat) ∧
      (∀ v ∈ post, (List.foldl stepMin x xs).toRat < v.toRat) := by
  induction xs with
  | nil =>
    intro x
    exact ⟨[], [], rfl, by simp, by simp⟩
  | cons y ys ih =>
    intro x
    rw [List.foldl_cons]
    by_cases h : x.toRat < y.toRat
    · have hstep : stepMin x y = x := by simp [stepMin, h]
      rw [hstep]
      obtain ⟨pre, post, heq, hpre, hpost⟩ := ih x
      cases pre with
      | nil =>
        rw [List.nil_append] at heq
        injection heq with h1 h2
        refine ⟨[], y :: ys, ?_, by simp, ?_⟩
        · rw [List.nil_append, ← h1]
        · intro v hv
          rcases List.mem_cons.mp hv with rfl | hv2
          · rw [← h1]; exact h
          · rw [h2] at hv2
            exact hpost v hv2
      | cons p pre2 =>
        rw [List.cons_append] at heq
        injection heq with h1 h2
        have hrx : (List.foldl stepMin x ys).toRat ≤ x.toRat := by
          have hp : p ∈ p :: pre2 := List.mem_cons_self p pre2
          have := hpre p hp
          rw [← h1] at this
          exact this
        refine ⟨x :: y :: pre2, post, ?_, ?_, hpost⟩
        · rw [List.cons_append, List.cons_append, ← h2]
        · intro v hv
          rcases List.mem_cons.mp hv with rfl | hv2
          · exact hrx
          · rcases List.mem_cons.mp hv2 with rfl | hv3
            · exact le_of_lt (lt_of_le_of_lt hrx h)
            · exact hpre v (List.mem_cons_of_mem p hv3)
    · have hstep : stepMin x y = y := by simp [stepMin, h]
      rw [hstep]
      obtain ⟨pre, post, heq, hpre, hpost⟩ := ih y
      have hyx : y.toRat ≤ x.toRat := le_of_not_lt h
      have hry : (List.foldl stepMin y ys).toRat ≤ y.toRat := by
        cases pre with
        | nil =>
          rw [List.nil_append] at heq
          injection heq with h1 h2
          rw [← h1]
        | cons p pre2 =>
          rw [List.cons_append] at heq
          injection heq with h1 h2
          have hp : p ∈ p :: pre2 := List.mem_cons_self p pre2
          have := hpre p hp
          rw [← h1] at this
          exact this
      refine ⟨x :: pre, post, ?_, ?_, hpost⟩
      · rw [List.cons_append, ← heq]
      · intro v hv
        rcases List.mem_cons.mp hv with rfl | hv2
        · exact le_trans hry hyx
        · exact hpre v hv2

/-- C2 (amended): over a nonempty finite number stream,
`run_iterator_comparison` — the driver shared by `iterator.min` and
`iterator.max` — returns an extremum of the items under the `<` comparator;
`max` returns the earliest item tied for the maximum, while `min` returns
the latest item tied for the minimum. -/
theorem iterator_min_max_extremum (x : KNumber) (xs : List KNumber) :
    (∃ r pre post,
      run_iterator_comparison numLess true (numOutputs (x :: xs)) =
          .ok (.number r) ∧
        x :: xs = pre ++ r :: post ∧
        (∀ v ∈ pre, v.toRat < r.toRat) ∧ (∀ v ∈ post, v.toRat ≤ r.toRat)) ∧
    (∃ r pre post,
      run_iterator_comparison numLess false (numOutputs (x :: xs)) =
          .ok (.number r) ∧
        x :: xs = pre ++ r :: post ∧
        (∀ v ∈ pre, r.toRat ≤ v.toRat) ∧ (∀ v ∈ post, r.toRat < v.toRat)) := by
  constructor
  · obtain ⟨pre, post, heq, hpre, hpost⟩ := foldl_stepMax_split xs x
    refine ⟨List.foldl stepMax x xs, pre, post, ?_, heq, hpre, hpost⟩
    have := run_iterator_comparison_numbers true x xs
    simpa using this
  · obtain ⟨pre, post, heq, hpre, hpost⟩ := foldl_stepMin_split xs x
    refine ⟨List.foldl stepMin x xs, pre, post, ?_, heq, hpre, hpost⟩
    have := run_iterator_comparison_numbers false x xs
    simpa using this

/-- C2 witness: `iterator_min_max_extremum` applied to the singleton stream
`[3]`. -/
theorem iterator_min_max_extremum_witness :
    ∃ r pre post,
      run_iterator_comparison numLess true (numOutputs (.I64 3 :: [])) =
          .ok (.number r) ∧
        KNumber.I64 3 :: [] = pre ++ r :: post ∧
        (∀ v ∈ pre, v.toRat < r.toRat) ∧ (∀ v ∈ post, v.toRat ≤ r.toRat) :=
  (iterator_min_max_extremum (.I64 3) []).1

/-- C2 counterexample: the integer 1 and the float 1.0 are tied under the
`<` comparator (neither compares less than the other), yet
`iterator.min` over `[1, 1.0]` returns the *later* tied item `1.0`
(a Float, distinguishable from the earliest tied item, the Int 1),
refuting the claim that ties resolve to the earliest item for `min`. -/
theorem iterator_min_tie_latest_counterexample :
    numLess (.number (.I64 1)) (.number (.F64 1)) = .ok (.bool false) ∧
      numLess (.number (.F64 1)) (.number (.I64 1)) = .ok (.bool false) ∧
      run_iterator_comparison numLess false (numOutputs [.I64 1, .F64 1]) =
        .ok (.number (.F64 1)) ∧
      KNumber.F64 1 ≠ KNumber.I64 1 := by
  refine ⟨?_, ?_, ?_, ?_⟩
  · simp [numLess, KNumber.toRat]
  · simp [numLess, KNumber.toRat]
  · simp [run_iterator_comparison, numOutputs, collect_pair, runCompLoop,
      compare_values_num, stepMin, KNumber.toRat]
  · simp

end Koto
